import Mathlib

/-!
Verification of the chat-with-documents application core.

This file gives a shallow embedding, in Lean 4, of the data model and the
operations of the repository (citation rendering, response streaming,
knowledge-base mutation, conversation management, history replay, and the
attachment lifecycle), and proves or refutes the frozen specification claims
about them.  Pure functions of the source are translated directly; stateful
UI callbacks become explicit state-passing functions; the missing top-level
application controller (not part of the provided sources) is modelled from
the specification where a claim depends on it, and such definitions are
marked in their doc comments.
-/

/- ============================================================ -/
/- Data model (types.ts / spec section 3)                       -/
/- ============================================================ -/

/-- Status of an uploaded or captured file: "loading", "loaded" or "error". -/
inductive AttachmentStatus
  | loading
  | loaded
  | error
  deriving DecidableEq, Repr

/-- An uploaded or captured file.  `data` is the base64 payload, present once
the file has been read; `errorMessage` is present when reading failed. -/
structure Attachment where
  id : String
  name : String
  type : String
  data : Option String := none
  status : AttachmentStatus
  errorMessage : Option String := none
  deriving DecidableEq, Repr

/-- A citation range into the final assembled text of a model message,
with the source uri.  In the source the index fields may be `undefined`;
here they are total, so of the rendering filter only the uri-truthiness
test remains meaningful. -/
structure CitationSource where
  startIndex : Nat
  endIndex : Nat
  uri : String
  license : Option String := none
  deriving DecidableEq, Repr

/-- Terminal per-URL retrieval metadata reported by the backend. -/
structure UrlContextMetadataItem where
  retrievedUrl : String
  urlRetrievalStatus : String
  deriving DecidableEq, Repr

/-- Message sender role. -/
inductive MessageSender
  | user
  | model
  | system
  deriving DecidableEq, Repr

/-- A chat message.  A model message is created with `isLoading := true` and
empty text, mutated as streaming progresses, and finalized with
`isLoading := false` plus terminal metadata. -/
structure ChatMessage where
  id : String
  text : String
  sender : MessageSender
  isLoading : Bool := false
  attachments : Option (List Attachment) := none
  citations : Option (List CitationSource) := none
  urlContext : Option (List UrlContextMetadataItem) := none
  deriving DecidableEq, Repr

/-- A named conversation owning its message log, URL list and file list. -/
structure Conversation where
  id : String
  name : String
  urls : List String := []
  files : List Attachment := []
  messages : List ChatMessage := []
  lastUpdated : Nat := 0
  deriving DecidableEq, Repr

/-- The name and MIME type of a file handed to the application by the
browser (the `File` object). -/
structure FileInfo where
  name : String
  type : String
  deriving DecidableEq, Repr

/- ============================================================ -/
/- Citation rendering (MessageItem.tsx, renderMessageContent)   -/
/- ============================================================ -/

/-- The footnote-marker HTML injected after a citation range, as built in
`renderMessageContent`: an anchor to the uri labelled with the source
number. -/
def injectionFor (uri : String) (n : Nat) : String :=
  "<sup><a href=\"" ++ uri ++ "\" target=\"_blank\" rel=\"noopener noreferrer\" title=\""
    ++ uri ++ "\" class=\"text-[#79B8FF] no-underline font-semibold\">["
    ++ toString n ++ "]</a></sup>"

/-- `processedText.slice(0, pos) + inj + processedText.slice(pos)` on a
sequence of characters. -/
def insertAt (l : List Char) (pos : Nat) (inj : List Char) : List Char :=
  l.take pos ++ inj ++ l.drop pos

/-- `getSourceNumber` of `renderMessageContent`: look the uri up in the
source map, or assign it the next counter value and record it.  Returns the
number together with the updated map and counter; the counter starts at 1. -/
def getSourceNumber (m : List (String × Nat)) (k : Nat) (uri : String) :
    Nat × List (String × Nat) × Nat :=
  match m.lookup uri with
  | some n => (n, m, k)
  | none => (k, m ++ [(uri, k)], k + 1)

/-- Stable insertion of a citation into a list sorted by descending
`startIndex`: the element goes before the first entry whose `startIndex`
does not exceed its own, so that ties keep their original order, as the
stable JavaScript `sort` with comparator `b.startIndex - a.startIndex`
does. -/
def sortInsert (c : CitationSource) : List CitationSource → List CitationSource
  | [] => [c]
  | d :: rest =>
      if d.startIndex ≤ c.startIndex then c :: d :: rest
      else d :: sortInsert c rest

/-- Stable sort of citations by descending `startIndex`. -/
def sortCitationsDesc : List CitationSource → List CitationSource
  | [] => []
  | c :: rest => sortInsert c (sortCitationsDesc rest)

/-- The `sortedCitations` of `renderMessageContent`: keep citations with a
truthy uri (the undefined-index tests of the source are vacuous for total
index fields), then sort by descending `startIndex`. -/
def sortCitations (cs : List CitationSource) : List CitationSource :=
  sortCitationsDesc (cs.filter (fun c => c.uri != ""))

/-- The `forEach` loop of `renderMessageContent`: for each citation in
processing order, fetch its source number and splice the marker into the
accumulated text at the citation's `endIndex`. -/
def applyCitations : List CitationSource → List Char → List (String × Nat) → Nat → List Char
  | [], text, _, _ => text
  | c :: rest, text, m, k =>
      let r := getSourceNumber m k c.uri
      applyCitations rest (insertAt text c.endIndex (injectionFor c.uri r.1).toList) r.2.1 r.2.2

/-- Render a message text with its citations: sort, then splice markers. -/
def renderWithCitations (text : List Char) (cs : List CitationSource) : List Char :=
  applyCitations (sortCitations cs) text [] 1

/-- Observation of the same loop: whether, at every step, the prefix of the
accumulated text below the citation's `endIndex` still coincides with the
original text, i.e. whether every insertion offset points at an unshifted
position of the original text. -/
def offsetsPreserved (orig : List Char) :
    List CitationSource → List Char → List (String × Nat) → Nat → Bool
  | [], _, _, _ => true
  | c :: rest, text, m, k =>
      (text.take c.endIndex == orig.take c.endIndex) &&
      (let r := getSourceNumber m k c.uri
       offsetsPreserved orig rest (insertAt text c.endIndex (injectionFor c.uri r.1).toList) r.2.1 r.2.2)

/-- Offset preservation for a full rendering run of `renderMessageContent`. -/
def offsetsPreservedRun (text : List Char) (cs : List CitationSource) : Bool :=
  offsetsPreserved text (sortCitations cs) text [] 1

/-- Observation of the same loop: the source number handed to each citation,
in processing order. -/
def assignNumbersGo : List CitationSource → List (String × Nat) → Nat → List Nat
  | [], _, _ => []
  | c :: rest, m, k =>
      let r := getSourceNumber m k c.uri
      r.1 :: assignNumbersGo rest r.2.1 r.2.2

/-- The source numbers the rendering assigns to the citations of a message,
listed in processing order (descending `startIndex`). -/
def sourceNumbersOf (cs : List CitationSource) : List Nat :=
  assignNumbersGo (sortCitations cs) [] 1

/-- The uris of the processed citations in first-seen order, extending an
already-seen list. -/
def collectUris (seen : List String) : List CitationSource → List String
  | [] => seen
  | c :: rest =>
      if seen.contains c.uri then collectUris seen rest
      else collectUris (seen ++ [c.uri]) rest

/-- Position of the first occurrence of a string in a list (length of the
list when absent). -/
def posIn (u : String) : List String → Nat
  | [] => 0
  | v :: rest => if v == u then 0 else posIn u rest + 1

/- ============================================================ -/
/- Lemmas about marker insertion                                -/
/- ============================================================ -/

/-- Splicing a marker into a text grows it by the marker's length,
wherever the splice point lies. -/
lemma insertAt_length (l : List Char) (pos : Nat) (inj : List Char) :
    (insertAt l pos inj).length = l.length + inj.length := by
  simp [insertAt]
  omega

/-- A splice at position `pos` leaves every prefix below `pos` (and within
the text) untouched. -/
lemma take_insertAt_of_le (l inj : List Char) (pos pos' : Nat)
    (h1 : pos' ≤ pos) (h2 : pos' ≤ l.length) :
    (insertAt l pos inj).take pos' = l.take pos' := by
  have hA : pos' ≤ (List.take pos l).length := by
    simp [List.length_take]
    omega
  have hB : pos' - (List.take pos l ++ inj).length = 0 := by
    simp [List.length_take]
    omega
  unfold insertAt
  rw [List.take_append_eq_append_take, hB, List.take_zero, List.append_nil,
    List.take_append_eq_append_take, Nat.sub_eq_zero_of_le hA, List.take_zero,
    List.append_nil, List.take_take, Nat.min_eq_left h1]

/-- If the endIndexes of the citations still to be processed are
non-increasing along the processing order, and each lies within the
accumulated text whose relevant prefixes still agree with the original,
then every remaining insertion lands at an unshifted offset. -/
lemma offsetsPreserved_of_antitone (orig : List Char) :
    ∀ (s : List CitationSource) (text : List Char) (m : List (String × Nat)) (k : Nat),
      List.Pairwise (fun a b => b.endIndex ≤ a.endIndex) s →
      (∀ c ∈ s, text.take c.endIndex = orig.take c.endIndex) →
      (∀ c ∈ s, c.endIndex ≤ text.length) →
      offsetsPreserved orig s text m k = true := by
  intro s
  induction s with
  | nil => intro text m k _ _ _; rfl
  | cons c rest ih =>
    intro text m k hpair htake hlen
    simp only [offsetsPreserved, Bool.and_eq_true]
    refine ⟨beq_iff_eq.mpr (htake c (List.mem_cons_self c rest)), ?_⟩
    refine ih _ _ _ (List.pairwise_cons.mp hpair).2 ?_ ?_
    · intro c' hc'
      rw [take_insertAt_of_le _ _ _ _ ((List.pairwise_cons.mp hpair).1 c' hc')
        (hlen c' (List.mem_cons_of_mem c hc'))]
      exact htake c' (List.mem_cons_of_mem c hc')
    · intro c' hc'
      have := hlen c' (List.mem_cons_of_mem c hc')
      rw [insertAt_length]
      omega

/- ============================================================ -/
/- Claim C1                                                     -/
/- ============================================================ -/

/-- C1, counterexample: for the nested ranges startIndex 0 / endIndex 10 and
startIndex 2 / endIndex 5, descending-startIndex processing inserts the
inner marker first, and the outer citation's endIndex 10 then points into
the injected marker rather than at position 10 of the original text: the
offset of the not-yet-processed earlier-startIndex citation is shifted. -/
theorem C1_citation_offsets_counterexample :
    offsetsPreservedRun ("0123456789ab".toList)
      [{ startIndex := 0, endIndex := 10, uri := "u" },
       { startIndex := 2, endIndex := 5, uri := "u" }] = false := by
  decide

/-- C1 (amended): rendering applies citations sorted in descending
startIndex order, inserting a footnote marker at each citation's endIndex
into the accumulated string; provided the endIndexes are non-increasing
along this processing order (which holds for disjoint and for
properly-overlapping ranges but fails for nested ones) and each endIndex
lies within the text, the insertion offset of every not-yet-processed
citation keeps pointing at the same position of the original text. -/
theorem C1_citation_offsets_amended (text : List Char) (cs : List CitationSource)
    (hmono : List.Pairwise (fun a b => b.endIndex ≤ a.endIndex) (sortCitations cs))
    (hin : ∀ c ∈ sortCitations cs, c.endIndex ≤ text.length) :
    offsetsPreservedRun text cs = true :=
  offsetsPreserved_of_antitone text (sortCitations cs) text [] 1 hmono
    (fun _ _ => rfl) hin

/-- C1, witness: the amended theorem applied to the spec's own concrete
example, a single citation of range 0 to 5 over the text "hello". -/
theorem C1_citation_offsets_witness :
    offsetsPreservedRun ("hello".toList)
      [{ startIndex := 0, endIndex := 5, uri := "u" }] = true :=
  C1_citation_offsets_amended ("hello".toList)
    [{ startIndex := 0, endIndex := 5, uri := "u" }] (by decide) (by decide)

/- ============================================================ -/
/- Lemmas about first-seen source numbering                     -/
/- ============================================================ -/


lemma posIn_append_of_mem (u : String) (ext : List String) :
    ∀ (seen : List String), u ∈ seen → posIn u (seen ++ ext) = posIn u seen := by
  intro seen
  induction seen with
  | nil => intro h; cases h
  | cons v s ih =>
    intro h
    by_cases hv : v = u
    · simp [posIn, hv]
    · have : u ∈ s := by
        cases h with
        | head => exact absurd rfl hv
        | tail _ h' => exact h'
      simp [posIn, hv, ih this]

lemma posIn_append_self (u : String) :
    ∀ (seen : List String), u ∉ seen → posIn u (seen ++ [u]) = seen.length := by
  intro seen
  induction seen with
  | nil => intro _; simp [posIn]
  | cons v s ih =>
    intro h
    have hv : ¬ v = u := fun e => h (e ▸ List.mem_cons_self v s)
    have hs : u ∉ s := fun e => h (List.mem_cons_of_mem v e)
    simp [posIn, hv, ih hs]

lemma collectUris_posIn_of_mem (u : String) :
    ∀ (l : List CitationSource) (seen : List String), u ∈ seen →
      posIn u (collectUris seen l) = posIn u seen := by
  intro l
  induction l with
  | nil => intro seen _; rfl
  | cons c rest ih =>
    intro seen h
    by_cases hc : seen.contains c.uri
    · simp only [collectUris, hc, if_pos]
      exact ih seen h
    · simp only [collectUris, hc]
      rw [if_neg (by simp_all)]
      rw [ih (seen ++ [c.uri]) (List.mem_append_left _ h)]
      exact posIn_append_of_mem u [c.uri] seen h

lemma lookup_append_single (m : List (String × Nat)) (v : String) (k : Nat) (u : String) :
    List.lookup u (m ++ [(v, k)])
      = (List.lookup u m).or (if u == v then some k else none) := by
  induction m with
  | nil => cases h : u == v <;> simp [List.lookup, h, Option.or]
  | cons p m ih =>
    cases h : u == p.1 <;> simp [List.lookup, h, ih, Option.or]

lemma assignNumbersGo_firstSeen :
    ∀ (l : List CitationSource) (seen : List String) (m : List (String × Nat)) (k : Nat),
      (∀ u, List.lookup u m = if seen.contains u then some (posIn u seen + 1) else none) →
      k = seen.length + 1 →
      assignNumbersGo l m k = l.map (fun c => posIn c.uri (collectUris seen l) + 1) := by
  intro l
  induction l with
  | nil => intro seen m k _ _; rfl
  | cons c rest ih =>
    intro seen m k hm hk
    by_cases hmem : c.uri ∈ seen
    · have hstep : assignNumbersGo (c :: rest) m k
          = (posIn c.uri seen + 1) :: assignNumbersGo rest m k := by
        simp [assignNumbersGo, getSourceNumber, hm c.uri, hmem]
      have hcol : collectUris seen (c :: rest) = collectUris seen rest := by
        simp [collectUris, hmem]
      rw [hstep, hcol, List.map_cons]
      congr 1
      · rw [collectUris_posIn_of_mem c.uri rest seen hmem]
      · exact ih seen m k hm hk
    · have hstep : assignNumbersGo (c :: rest) m k
          = k :: assignNumbersGo rest (m ++ [(c.uri, k)]) (k + 1) := by
        simp [assignNumbersGo, getSourceNumber, hm c.uri, hmem]
      have hcol : collectUris seen (c :: rest) = collectUris (seen ++ [c.uri]) rest := by
        simp [collectUris, hmem]
      rw [hstep, hcol, List.map_cons]
      congr 1
      · rw [collectUris_posIn_of_mem c.uri rest (seen ++ [c.uri])
          (List.mem_append_right _ (List.mem_singleton_self c.uri)),
          posIn_append_self c.uri seen hmem]
        omega
      · refine ih (seen ++ [c.uri]) (m ++ [(c.uri, k)]) (k + 1) ?_ (by simp; omega)
        intro u
        rw [lookup_append_single, hm u]
        by_cases hu : u ∈ seen
        · simp [hu, Option.or, posIn_append_of_mem u [c.uri] seen hu]
        · by_cases hcu : u = c.uri
          · simp [hcu, hmem, hu, Option.or, hk,
              posIn_append_self c.uri seen hmem]
          · simp [hu, hcu, Option.or]

/- ============================================================ -/
/- Claim C4                                                     -/
/- ============================================================ -/

/-- C4: footnote source numbers are assigned in first-seen order during
processing, keyed by uri: the number each citation receives is one plus the
position of its uri in the first-seen-order uri list of the processing
sequence, which iterates the citations sorted by descending startIndex;
two citations sharing a uri receive the same number; and on the concrete
pair of citations at ranges 0 to 2 (uri "a") and 5 to 7 (uri "b"), the
citation appearing last in the text is processed first and receives
number 1. -/
theorem C4_source_numbering :
    (∀ cs : List CitationSource,
        sourceNumbersOf cs
          = (sortCitations cs).map
              (fun c => posIn c.uri (collectUris [] (sortCitations cs)) + 1))
    ∧ (∀ (cs : List CitationSource) (i j : Nat) (ci cj : CitationSource),
        (sortCitations cs)[i]? = some ci → (sortCitations cs)[j]? = some cj →
        ci.uri = cj.uri → (sourceNumbersOf cs)[i]? = (sourceNumbersOf cs)[j]?)
    ∧ sortCitations
          [{ startIndex := 0, endIndex := 2, uri := "a" },
           { startIndex := 5, endIndex := 7, uri := "b" }]
        = [{ startIndex := 5, endIndex := 7, uri := "b" },
           { startIndex := 0, endIndex := 2, uri := "a" }]
    ∧ sourceNumbersOf
          [{ startIndex := 0, endIndex := 2, uri := "a" },
           { startIndex := 5, endIndex := 7, uri := "b" }] = [1, 2] := by
  have hbase : ∀ cs : List CitationSource,
      sourceNumbersOf cs
        = (sortCitations cs).map
            (fun c => posIn c.uri (collectUris [] (sortCitations cs)) + 1) := by
    intro cs
    unfold sourceNumbersOf
    exact assignNumbersGo_firstSeen (sortCitations cs) [] [] 1
      (fun u => by simp [List.lookup]) rfl
  refine ⟨hbase, ?_, by decide, by decide⟩
  intro cs i j ci cj hi hj huri
  rw [hbase cs, List.getElem?_map, List.getElem?_map, hi, hj]
  simp [huri]

/-- C4, witness: for two citations sharing uri "a", the theorem yields that
both receive the same source number. -/
theorem C4_source_numbering_witness :
    (sourceNumbersOf [{ startIndex := 0, endIndex := 7, uri := "a" },
                      { startIndex := 9, endIndex := 12, uri := "a" }])[0]?
      = (sourceNumbersOf [{ startIndex := 0, endIndex := 7, uri := "a" },
                          { startIndex := 9, endIndex := 12, uri := "a" }])[1]? :=
  C4_source_numbering.2.1
    [{ startIndex := 0, endIndex := 7, uri := "a" },
     { startIndex := 9, endIndex := 12, uri := "a" }] 0 1
    { startIndex := 9, endIndex := 12, uri := "a" }
    { startIndex := 0, endIndex := 7, uri := "a" }
    (by decide) (by decide) rfl

/- ============================================================ -/
/- Streaming (geminiService.ts)                                 -/
/- ============================================================ -/

/-- The `citationMetadata` field of a response candidate. -/
structure CitationMetadata where
  citationSources : Option (List CitationSource) := none
  deriving DecidableEq, Repr

/-- The `urlContextMetadata` field of a response candidate. -/
structure UrlContextMetadataField where
  urlMetadata : Option (List UrlContextMetadataItem) := none
  deriving DecidableEq, Repr

/-- A response candidate as read by the streaming function. -/
structure Candidate where
  citationMetadata : Option CitationMetadata := none
  urlContextMetadata : Option UrlContextMetadataField := none
  deriving DecidableEq, Repr

/-- One chunk of the backend's lazy response sequence: an optional text
delta and the candidate list. -/
structure StreamChunk where
  text : Option String := none
  candidates : List Candidate := []
  deriving DecidableEq, Repr

/-- An item yielded by `generateContentStreamWithUrlContext`: either a text
delta, or the single terminal item carrying citations and url-context
metadata (either may be absent). -/
inductive StreamYield
  | textChunk (t : String)
  | terminal (urlContextMetadata : Option (List UrlContextMetadataItem))
      (citations : Option (List CitationSource))
  deriving DecidableEq, Repr

/-- The citations extracted from a final chunk:
`finalResponse.candidates?.[0]?.citationMetadata?.citationSources`. -/
def extractCitations (c : StreamChunk) : Option (List CitationSource) :=
  (c.candidates.head?.bind Candidate.citationMetadata).bind CitationMetadata.citationSources

/-- The url-context metadata extracted from a final chunk:
`candidate.urlContextMetadata.urlMetadata` when the path is present. -/
def extractUrlContextMetadata (c : StreamChunk) : Option (List UrlContextMetadataItem) :=
  (c.candidates.head?.bind Candidate.urlContextMetadata).bind UrlContextMetadataField.urlMetadata

/-- The chunk loop of `generateContentStreamWithUrlContext`: yield each
truthy text delta in arrival order while remembering the chunk as
`finalResponse`; once the stream is exhausted, if any chunk arrived, yield
one terminal item with the metadata extracted from the last chunk. -/
def streamGo : List StreamChunk → Option StreamChunk → List StreamYield
  | [], none => []
  | [], some fin =>
      [StreamYield.terminal (extractUrlContextMetadata fin) (extractCitations fin)]
  | c :: rest, _ =>
      (match c.text with
       | some s => if s = "" then streamGo rest (some c)
                   else StreamYield.textChunk s :: streamGo rest (some c)
       | none => streamGo rest (some c))

/-- The full sequence of items yielded for a given backend chunk stream. -/
def streamYields (chunks : List StreamChunk) : List StreamYield :=
  streamGo chunks none

/-- The text deltas among the yielded items, in order. -/
def deltasOf (ys : List StreamYield) : List String :=
  ys.filterMap fun y => match y with
    | StreamYield.textChunk s => some s
    | StreamYield.terminal _ _ => none

/-- The truthy text deltas a chunk list carries, in arrival order. -/
def textsOf (chunks : List StreamChunk) : List String :=
  (chunks.filterMap StreamChunk.text).filter (fun s => s != "")

/-- The last chunk of a stream, or the supplied fallback when the stream is
empty (mirrors the running `finalResponse` variable). -/
def lastChunkOr (chunks : List StreamChunk) (fin : Option StreamChunk) : Option StreamChunk :=
  match chunks.getLast? with
  | some c => some c
  | none => fin

/-- The terminal yield produced for a given final chunk, if any. -/
def terminalFor : Option StreamChunk → List StreamYield
  | none => []
  | some fin =>
      [StreamYield.terminal (extractUrlContextMetadata fin) (extractCitations fin)]

/-- `getAiInstance`: reject with a configuration error when the API key is
absent or empty (JavaScript falsiness of `process.env.API_KEY`). -/
def getAiInstance (apiKey : Option String) : Except String Unit :=
  match apiKey with
  | none => Except.error "Gemini API Key not configured. Set process.env.API_KEY."
  | some k =>
      if k = "" then Except.error "Gemini API Key not configured. Set process.env.API_KEY."
      else Except.ok ()

/-- UI language setting. -/
inductive Lang
  | ar
  | en
  deriving DecidableEq, Repr

/-- A run of `generateContentStreamWithUrlContext`: the generator first
calls `getAiInstance`, so with no credential it throws on its first step;
otherwise it invokes the backend once and yields the items of `streamGo`.
The second component counts backend invocations. -/
def generateContentStreamRun (apiKey : Option String)
    (backendChunks : List StreamChunk) : Except String (List StreamYield) × Nat :=
  match getAiInstance apiKey with
  | Except.error e => (Except.error e, 0)
  | Except.ok _ => (Except.ok (streamYields backendChunks), 1)

/-- Modelled from the spec: the application-level consumer of the stream
(the top-level controller is not among the provided sources).  Spec section
4.2 steps 5 and 6: each text delta is concatenated into the running buffer
and the placeholder's text replaced by the full buffer; the terminal item
attaches the last-seen citations and urlContextMetadata. -/
def applyStreamYield (msg : ChatMessage) (y : StreamYield) : ChatMessage :=
  match y with
  | StreamYield.textChunk s => { msg with text := msg.text ++ s }
  | StreamYield.terminal meta cits => { msg with citations := cits, urlContext := meta }

/-- Modelled from the spec: on stream exhaustion the placeholder is
finalized with `isLoading := false` (spec section 4.2 step 6). -/
def consumeStream (msg : ChatMessage) (ys : List StreamYield) : ChatMessage :=
  { ys.foldl applyStreamYield msg with isLoading := false }

/-- The placeholder model message appended before the first byte arrives. -/
def placeholderMessage (id : String) : ChatMessage :=
  { id := id, text := "", sender := MessageSender.model, isLoading := true }

/-- Whether a yielded item is the terminal metadata item. -/
def isTerminalYield : StreamYield → Bool
  | StreamYield.textChunk _ => false
  | StreamYield.terminal _ _ => true

/-- The fixed payload `getInitialSuggestions` returns for an empty URL
list: `JSON.stringify` of the single placeholder suggestion. -/
def initialSuggestionsPlaceholderJson : String :=
  "\x7b\"suggestions\":[\"Add some URLs to get topic suggestions.\"]\x7d"

/-- A run of `getInitialSuggestions`: with an empty URL list it returns the
fixed placeholder payload before the credential check; otherwise it checks
the credential and invokes the backend once, whose response text is the
`backendText` parameter.  The second component counts backend
invocations. -/
def getInitialSuggestionsRun (apiKey : Option String) (urls : List String)
    (language : Lang) (backendText : String) : Except String String × Nat :=
  if urls.isEmpty then (Except.ok initialSuggestionsPlaceholderJson, 0)
  else
    match getAiInstance apiKey with
    | Except.error e => (Except.error e, 0)
    | Except.ok _ => (Except.ok backendText, 1)

/- ============================================================ -/
/- Lemmas about the streaming loop                              -/
/- ============================================================ -/

/-- Joining a cons splits as string concatenation. -/
lemma join_cons_eq (s : String) (l : List String) :
    String.join (s :: l) = s ++ String.join l := by
  simp [String.join_eq]
  rfl

/-- One step of the running `finalResponse` variable. -/
lemma lastChunkOr_cons (c : StreamChunk) (rest : List StreamChunk) (fin : Option StreamChunk) :
    lastChunkOr (c :: rest) fin = lastChunkOr rest (some c) := by
  cases rest with
  | nil => rfl
  | cons d ds =>
    cases h : (d :: ds).getLast? with
    | none => simp at h
    | some e => simp [lastChunkOr, List.getLast?_cons_cons, h]

/-- Structure of the yielded sequence: the truthy deltas in arrival order,
followed by the terminal item for the last chunk seen. -/
lemma streamGo_eq (chunks : List StreamChunk) :
    ∀ fin, streamGo chunks fin
      = (textsOf chunks).map StreamYield.textChunk ++ terminalFor (lastChunkOr chunks fin) := by
  induction chunks with
  | nil => intro fin; cases fin <;> rfl
  | cons c rest ih =>
    intro fin
    rw [lastChunkOr_cons]
    cases ht : c.text with
    | none =>
      have h1 : streamGo (c :: rest) fin = streamGo rest (some c) := by
        simp [streamGo, ht]
      have h2 : textsOf (c :: rest) = textsOf rest := by
        simp [textsOf, List.filterMap_cons, ht]
      rw [h1, h2, ih]
    | some s =>
      by_cases hs : s = ""
      · have h1 : streamGo (c :: rest) fin = streamGo rest (some c) := by
          simp [streamGo, ht, hs]
        have h2 : textsOf (c :: rest) = textsOf rest := by
          simp [textsOf, List.filterMap_cons, ht, hs]
        rw [h1, h2, ih]
      · have h1 : streamGo (c :: rest) fin
            = StreamYield.textChunk s :: streamGo rest (some c) := by
          simp [streamGo, ht, hs]
        have h2 : textsOf (c :: rest) = s :: textsOf rest := by
          simp [textsOf, List.filterMap_cons, ht, List.filter_cons, hs]
        rw [h1, h2, ih]
        rfl

/-- Structure of a full generator run. -/
lemma streamYields_eq (chunks : List StreamChunk) :
    streamYields chunks
      = (textsOf chunks).map StreamYield.textChunk ++ terminalFor chunks.getLast? := by
  have h : lastChunkOr chunks none = chunks.getLast? := by
    unfold lastChunkOr
    cases chunks.getLast? <;> rfl
  rw [streamYields, streamGo_eq, h]

/-- Deltas of a mapped delta list. -/
lemma deltasOf_map_textChunk (texts : List String) :
    deltasOf (texts.map StreamYield.textChunk) = texts := by
  induction texts with
  | nil => rfl
  | cons s rest ih =>
    simp only [deltasOf, List.map_cons, List.filterMap_cons] at ih ⊢
    rw [ih]

/-- The deltas of a structured yield sequence are exactly its text list. -/
lemma deltasOf_shape (texts : List String) (x : Option StreamChunk) :
    deltasOf (texts.map StreamYield.textChunk ++ terminalFor x) = texts := by
  have h := deltasOf_map_textChunk texts
  simp only [deltasOf, List.filterMap_append] at h ⊢
  rw [h]
  cases x <;> simp [terminalFor]

/-- Dropping empty strings does not change a join. -/
lemma join_filter_ne_empty (l : List String) :
    String.join (l.filter (fun s => s != "")) = String.join l := by
  induction l with
  | nil => rfl
  | cons s rest ih =>
    by_cases hs : s = ""
    · simp [List.filter_cons, hs, join_cons_eq, ih]
    · simp [List.filter_cons, hs, join_cons_eq, ih]

/-- The consumer buffer after a yield sequence is the initial text followed
by the joined deltas. -/
lemma foldl_applyStreamYield_text (ys : List StreamYield) :
    ∀ msg : ChatMessage,
      (ys.foldl applyStreamYield msg).text = msg.text ++ String.join (deltasOf ys) := by
  induction ys with
  | nil => intro msg; simp [deltasOf, String.join]
  | cons y rest ih =>
    intro msg
    cases y with
    | textChunk s =>
      simp [applyStreamYield, ih, deltasOf, List.filterMap_cons, join_cons_eq,
        String.append_assoc]
    | terminal meta cits =>
      simp [applyStreamYield, ih, deltasOf, List.filterMap_cons]

/- ============================================================ -/
/- Claim C2                                                     -/
/- ============================================================ -/

/-- C2: the streaming function yields each chunk's text delta in arrival
order; the finalized message text equals the concatenation of all yielded
deltas, which equals the concatenation of all chunk texts; when the stream
carried at least one chunk, exactly one terminal item is yielded, after the
last delta, carrying the citations and urlContextMetadata extracted from
the last chunk (either may be absent); on exhaustion the consumer finalizes
the placeholder with `isLoading := false`; and the deltas "Hel", "lo"
against an empty placeholder produce the final text "Hello". -/
theorem C2_stream_assembly :
    (∀ chunks : List StreamChunk,
        streamYields chunks
          = (textsOf chunks).map StreamYield.textChunk ++ terminalFor chunks.getLast?)
    ∧ (∀ (chunks : List StreamChunk) (pid : String),
        (consumeStream (placeholderMessage pid) (streamYields chunks)).isLoading = false
        ∧ (consumeStream (placeholderMessage pid) (streamYields chunks)).text
            = String.join (textsOf chunks)
        ∧ String.join (textsOf chunks) = String.join (chunks.filterMap StreamChunk.text))
    ∧ (∀ (chunks : List StreamChunk) (last : StreamChunk) (pid : String),
        chunks.getLast? = some last →
        (streamYields chunks).countP isTerminalYield = 1
        ∧ (consumeStream (placeholderMessage pid) (streamYields chunks)).citations
            = extractCitations last
        ∧ (consumeStream (placeholderMessage pid) (streamYields chunks)).urlContext
            = extractUrlContextMetadata last)
    ∧ (consumeStream (placeholderMessage "m")
          (streamYields [{ text := some "Hel" }, { text := some "lo" }])).text = "Hello" := by
  refine ⟨streamYields_eq, ?_, ?_, by decide⟩
  · intro chunks pid
    refine ⟨rfl, ?_, ?_⟩
    · rw [consumeStream]
      show (List.foldl applyStreamYield (placeholderMessage pid) (streamYields chunks)).text
        = String.join (textsOf chunks)
      rw [foldl_applyStreamYield_text, streamYields_eq, deltasOf_shape]
      rfl
    · exact join_filter_ne_empty _
  · intro chunks last pid hlast
    rw [streamYields_eq, hlast]
    refine ⟨?_, ?_, ?_⟩
    · rw [List.countP_append]
      have h0 : ((textsOf chunks).map StreamYield.textChunk).countP isTerminalYield = 0 := by
        rw [List.countP_eq_zero]
        intro a ha
        rcases List.mem_map.mp ha with ⟨s, _, rfl⟩
        simp [isTerminalYield]
      rw [h0]
      rfl
    · simp [consumeStream, List.foldl_append, terminalFor, applyStreamYield]
    · simp [consumeStream, List.foldl_append, terminalFor, applyStreamYield]

/-- C2, witness: on the two-delta stream of the spec example, the theorem
gives exactly one terminal item and absent citations (the chunks carry no
candidates). -/
theorem C2_stream_assembly_witness :
    (streamYields [{ text := some "Hel" }, { text := some "lo" }]).countP isTerminalYield = 1
    ∧ (consumeStream (placeholderMessage "m")
        (streamYields [{ text := some "Hel" }, { text := some "lo" }])).citations = none :=
  ⟨(C2_stream_assembly.2.2.1 [{ text := some "Hel" }, { text := some "lo" }]
      { text := some "lo" } "m" rfl).1,
   (C2_stream_assembly.2.2.1 [{ text := some "Hel" }, { text := some "lo" }]
      { text := some "lo" } "m" rfl).2.1⟩

/- ============================================================ -/
/- Claim C7                                                     -/
/- ============================================================ -/

/-- C7: with no backend credential configured (key absent, or empty and so
falsy), the streaming function fails with the configuration error on its
first step, the backend is never invoked (invocation count 0), and no model
content is produced. -/
theorem C7_missing_credential :
    ∀ backendChunks : List StreamChunk,
      generateContentStreamRun none backendChunks
          = (Except.error "Gemini API Key not configured. Set process.env.API_KEY.", 0)
      ∧ generateContentStreamRun (some "") backendChunks
          = (Except.error "Gemini API Key not configured. Set process.env.API_KEY.", 0) :=
  fun _ => ⟨rfl, by simp [generateContentStreamRun, getAiInstance]⟩

/- ============================================================ -/
/- Claim C10                                                    -/
/- ============================================================ -/

/-- C10: for every language setting and every credential state, the
suggestion fetcher called with an empty URL list returns the fixed JSON
payload with the single placeholder suggestion, without checking the
credential and without any backend invocation. -/
theorem C10_empty_url_suggestions :
    ∀ (apiKey : Option String) (language : Lang) (backendText : String),
      getInitialSuggestionsRun apiKey [] language backendText
        = (Except.ok initialSuggestionsPlaceholderJson, 0) :=
  fun _ _ _ => rfl

/- ============================================================ -/
/- Knowledge base mutation (KnowledgeBaseManager)               -/
/- ============================================================ -/

/-- JavaScript `String.prototype.trim`: strip leading and trailing
whitespace (modelled character-wise; the built-in `String.trim` of the
host runtime behaves the same on the inputs of interest). -/
def jsTrim (s : String) : String :=
  String.mk (((s.toList.dropWhile Char.isWhitespace).reverse.dropWhile
    Char.isWhitespace).reverse)

/-- Outcome reported by `handleAddUrlClick`: one of its four rejection
errors, or acceptance. -/
inductive AddUrlOutcome
  | errUrlEmpty
  | errUrlInvalid
  | errMaxItems
  | errUrlExists
  | accepted
  deriving DecidableEq, Repr

/-- `handleAddUrlClick` of the knowledge-base panel combined with the
effect of `onAddUrl`.  The guards, in source order: input empty after
trimming, invalid URL (the browser URL constructor is a host API, modelled
by the `isValidUrl` oracle), context limit reached
(`totalItems >= maxItems`), and duplicate URL by exact string match
(`urls.includes`).  The accepting branch is modelled from the spec: the
top-level controller holding the `addUrl` mutation is not among the
provided sources, and per spec section 4.1 it appends the url to the active
conversation's URL list. -/
def handleAddUrlClick (isValidUrl : String → Bool) (conv : Conversation)
    (maxItems : Nat) (input : String) : Conversation × AddUrlOutcome :=
  if jsTrim input = "" then (conv, AddUrlOutcome.errUrlEmpty)
  else if !(isValidUrl input) then (conv, AddUrlOutcome.errUrlInvalid)
  else if maxItems ≤ conv.urls.length + conv.files.length then (conv, AddUrlOutcome.errMaxItems)
  else if conv.urls.contains input then (conv, AddUrlOutcome.errUrlExists)
  else ({ conv with urls := conv.urls ++ [input] }, AddUrlOutcome.accepted)

/-- The MIME types accepted by the file pickers. -/
def supportedTypes : List String :=
  ["image/jpeg", "image/png", "image/webp",
   "text/plain", "text/markdown", "application/pdf",
   "application/vnd.openxmlformats-officedocument.wordprocessingml.document",
   "application/vnd.openxmlformats-officedocument.spreadsheetml.sheet"]

/-- The per-file filter of `handleFilesSelected`: files with an unsupported
MIME type, and files whose name matches an existing conversation file, are
skipped (with an error message); the rest are processed. -/
def filesToProcess (existing : List Attachment) (selected : List FileInfo) : List FileInfo :=
  selected.filter (fun f =>
    supportedTypes.contains f.type && !(existing.any (fun e => e.name == f.name)))

/-- Modelled from the spec: the `addFiles` mutation of the top-level
controller (not among the provided sources) inserts a loading-status
placeholder for each accepted file (spec section 4.1). -/
def kbLoadingPlaceholder (f : FileInfo) : Attachment :=
  { id := "kb-" ++ f.name, name := f.name, type := f.type,
    status := AttachmentStatus.loading }

/-- `handleFilesSelected` of the knowledge-base panel combined with the
effect of `onAddFiles`: reject the whole selection when it would exceed the
context limit (`totalItems + selectedFiles.length > maxItems`); otherwise
filter the selection and, when any file remains, append a loading
placeholder for each. -/
def handleFilesSelected (conv : Conversation) (maxItems : Nat)
    (selected : List FileInfo) : Conversation :=
  if maxItems < conv.urls.length + conv.files.length + selected.length then conv
  else if (filesToProcess conv.files selected).isEmpty then conv
  else { conv with
    files := conv.files ++ (filesToProcess conv.files selected).map kbLoadingPlaceholder }

/-- Attempt a sequence of URL additions one at a time, collecting each
attempt's outcome. -/
def addUrlFold (isValidUrl : String → Bool) (maxItems : Nat) :
    Conversation → List String → Conversation × List AddUrlOutcome
  | conv, [] => (conv, [])
  | conv, u :: rest =>
      let r := handleAddUrlClick isValidUrl conv maxItems u
      let rr := addUrlFold isValidUrl maxItems r.1 rest
      (rr.1, r.2 :: rr.2)

/-- Thirty-one distinct valid URLs. -/
def scenarioUrls : List String :=
  (List.range 31).map (fun i => "https://example.com/" ++ toString i)

/- ============================================================ -/
/- Claim C3                                                     -/
/- ============================================================ -/

set_option maxRecDepth 4000 in
/-- C3: for every valid maxContextItems setting M (1 to 100), any URL-add
and any file-add operation preserves `urls.length + files.length <= M`;
and starting from a conversation with no URLs and no files and M = 30,
adding 31 distinct URLs one at a time accepts exactly the first 30 and
rejects the 31st with the max-items error, leaving the item count at 30. -/
theorem C3_max_context_items :
    (∀ (isValidUrl : String → Bool) (conv : Conversation) (maxItems : Nat) (input : String),
        1 ≤ maxItems → maxItems ≤ 100 →
        conv.urls.length + conv.files.length ≤ maxItems →
        (handleAddUrlClick isValidUrl conv maxItems input).1.urls.length
          + (handleAddUrlClick isValidUrl conv maxItems input).1.files.length ≤ maxItems)
    ∧ (∀ (conv : Conversation) (maxItems : Nat) (selected : List FileInfo),
        1 ≤ maxItems → maxItems ≤ 100 →
        conv.urls.length + conv.files.length ≤ maxItems →
        (handleFilesSelected conv maxItems selected).urls.length
          + (handleFilesSelected conv maxItems selected).files.length ≤ maxItems)
    ∧ (addUrlFold (fun _ => true) 30 { id := "c1", name := "KB" } scenarioUrls).2
        = List.replicate 30 AddUrlOutcome.accepted ++ [AddUrlOutcome.errMaxItems]
    ∧ (addUrlFold (fun _ => true) 30 { id := "c1", name := "KB" } scenarioUrls).1.urls.length = 30
    ∧ (addUrlFold (fun _ => true) 30 { id := "c1", name := "KB" } scenarioUrls).1.files.length = 0 := by
  refine ⟨?_, ?_, by decide, by decide, by decide⟩
  · intro isValidUrl conv maxItems input _ _ hinv
    unfold handleAddUrlClick
    split
    · exact hinv
    split
    · exact hinv
    split
    · exact hinv
    split
    · exact hinv
    · rename_i hmax _
      simp
      omega
  · intro conv maxItems selected _ _ hinv
    unfold handleFilesSelected
    split
    · exact hinv
    split
    · exact hinv
    · rename_i hmax _
      have hle : (filesToProcess conv.files selected).length ≤ selected.length :=
        List.length_filter_le _ _
      simp
      omega

/-- C3, witness: the preservation part applied to one URL addition into an
empty conversation with limit 30. -/
theorem C3_max_context_items_witness :
    (handleAddUrlClick (fun _ => true) { id := "c1", name := "KB" } 30
        "https://example.com/0").1.urls.length
      + (handleAddUrlClick (fun _ => true) { id := "c1", name := "KB" } 30
          "https://example.com/0").1.files.length ≤ 30 :=
  C3_max_context_items.1 (fun _ => true) { id := "c1", name := "KB" } 30
    "https://example.com/0" (by decide) (by decide) (by decide)

/- ============================================================ -/
/- Claim C8                                                     -/
/- ============================================================ -/

/-- C8: adding a URL already present in the conversation's URL list
(compared by exact string equality, with no normalization) is rejected as a
no-op: the conversation is unchanged and the addition is not accepted. -/
theorem C8_duplicate_url (isValidUrl : String → Bool) (conv : Conversation)
    (maxItems : Nat) (input : String) (hdup : conv.urls.contains input = true) :
    (handleAddUrlClick isValidUrl conv maxItems input).1 = conv
    ∧ (handleAddUrlClick isValidUrl conv maxItems input).2 ≠ AddUrlOutcome.accepted := by
  unfold handleAddUrlClick
  by_cases h1 : jsTrim input = ""
  · simp [h1]
  · by_cases h2 : (!isValidUrl input) = true
    · simp [h1, h2]
    · by_cases h3 : maxItems ≤ conv.urls.length + conv.files.length
      · simp [h1, h2, h3]
      · simp [h1, h2, h3, show input ∈ conv.urls by simpa using hdup]

/-- C8, witness: re-adding the only URL of a conversation leaves it
unchanged. -/
theorem C8_duplicate_url_witness :
    (handleAddUrlClick (fun _ => true)
        { id := "c1", name := "KB", urls := ["https://a.example"] } 30
        "https://a.example").1
      = { id := "c1", name := "KB", urls := ["https://a.example"] }
    ∧ (handleAddUrlClick (fun _ => true)
        { id := "c1", name := "KB", urls := ["https://a.example"] } 30
        "https://a.example").2 ≠ AddUrlOutcome.accepted :=
  C8_duplicate_url (fun _ => true)
    { id := "c1", name := "KB", urls := ["https://a.example"] } 30
    "https://a.example" (by decide)

/- ============================================================ -/
/- Conversation repository (spec section 4.1)                   -/
/- ============================================================ -/

/-- The conversation repository: the conversation set and the id of the
active conversation. -/
structure RepoState where
  conversations : List Conversation
  activeConversationId : String
  deriving DecidableEq, Repr

/-- Index of the conversation with the given id, if present. -/
def findConvIdx (id : String) : List Conversation → Option Nat
  | [] => none
  | c :: rest =>
      if c.id == id then some 0
      else (findConvIdx id rest).map (· + 1)

/-- Modelled from the spec: `delete(id)` of the top-level controller (not
among the provided sources; the knowledge-base panel only disables its
delete button when one conversation remains).  Spec section 4.1: the
operation no-ops when it would delete the last remaining conversation; on
success it removes the conversation and selects the previous-by-index
conversation as active, clamped to the valid range, i.e. the new first
conversation when the deleted one was first. -/
def deleteConversation (s : RepoState) (id : String) : RepoState :=
  if s.conversations.length ≤ 1 then s
  else
    match findConvIdx id s.conversations with
    | none => s
    | some i =>
        let remaining := s.conversations.eraseIdx i
        let newActive :=
          match remaining[i - 1]? with
          | some c => c.id
          | none => s.activeConversationId
        { conversations := remaining, activeConversationId := newActive }

/-- A found index is within the list. -/
lemma findConvIdx_lt_length (id : String) :
    ∀ (l : List Conversation) (i : Nat), findConvIdx id l = some i → i < l.length := by
  intro l
  induction l with
  | nil => intro i h; simp [findConvIdx] at h
  | cons c rest ih =>
    intro i h
    simp only [findConvIdx] at h
    by_cases hc : (c.id == id) = true
    · rw [if_pos hc] at h
      cases h
      simp
    · rw [if_neg hc] at h
      cases hj : findConvIdx id rest with
      | none => rw [hj] at h; simp at h
      | some j =>
        rw [hj] at h
        simp at h
        have := ih j hj
        simp [← h]
        omega

/- ============================================================ -/
/- Claim C5                                                     -/
/- ============================================================ -/

/-- C5: deleting is a no-op when only one conversation remains, so the
conversation count never drops below 1; with more than one conversation, a
successful delete removes exactly the addressed conversation (the count
drops by one) and selects as active the previous-by-index conversation, in
particular the new first conversation when the deleted one was first (in
Nat arithmetic the clamped index i - 1 is 0 for i = 0). -/
theorem C5_delete_conversation :
    (∀ (s : RepoState) (id : String),
        s.conversations.length = 1 → deleteConversation s id = s)
    ∧ (∀ (s : RepoState) (id : String),
        1 ≤ s.conversations.length → 1 ≤ (deleteConversation s id).conversations.length)
    ∧ (∀ (s : RepoState) (id : String) (i : Nat),
        2 ≤ s.conversations.length → findConvIdx id s.conversations = some i →
        (deleteConversation s id).conversations = s.conversations.eraseIdx i
        ∧ (deleteConversation s id).conversations.length + 1 = s.conversations.length
        ∧ ∀ c, (s.conversations.eraseIdx i)[i - 1]? = some c →
            (deleteConversation s id).activeConversationId = c.id) := by
  refine ⟨?_, ?_, ?_⟩
  · intro s id h
    simp [deleteConversation, h]
  · intro s id h
    unfold deleteConversation
    split
    · exact h
    · rename_i hlen
      cases hf : findConvIdx id s.conversations with
      | none => simpa using h
      | some i =>
        have hi := findConvIdx_lt_length id s.conversations i hf
        simp [List.length_eraseIdx, hi]
        omega
  · intro s id i hlen hf
    have hi := findConvIdx_lt_length id s.conversations i hf
    have hnot : ¬ s.conversations.length ≤ 1 := by omega
    unfold deleteConversation
    rw [if_neg hnot, hf]
    refine ⟨rfl, ?_, ?_⟩
    · simp [List.length_eraseIdx, hi]
      omega
    · intro c hc
      simp [hc]

/-- C5, witness: deleting the second of two conversations keeps the first
and makes it active. -/
theorem C5_delete_conversation_witness :
    (deleteConversation
        { conversations := [{ id := "a", name := "A" }, { id := "b", name := "B" }],
          activeConversationId := "b" } "b").activeConversationId = "a" :=
  (C5_delete_conversation.2.2
      { conversations := [{ id := "a", name := "A" }, { id := "b", name := "B" }],
        activeConversationId := "b" } "b" 1 (by decide) (by decide)).2.2
    { id := "a", name := "A" } (by decide)

/- ============================================================ -/
/- History replay (spec section 4.3) and claim C6               -/
/- ============================================================ -/


/-- Modelled from the spec: the finalized model reply the Reconciler
appends after a replay (spec section 4.2: a placeholder model message is
appended, streamed into, and finalized). -/
def mkModelReply (id text : String) : ChatMessage :=
  { id := id, text := text, sender := MessageSender.model }

/-- Modelled from the spec: the edit flow of the History Replay Controller
(the top-level controller is not among the provided sources).  Spec section
4.3: locate the target message, require sender user, truncate history to
before it, append the same message with updated text, and let the
Reconciler append one new model reply; a failed id or sender lookup leaves
the history unchanged. -/
def editMessageGo (targetId newText : String) (reply : ChatMessage) :
    List ChatMessage → List ChatMessage
  | [] => []
  | m :: rest =>
      if m.id == targetId then
        (if m.sender == MessageSender.user then
          [{ m with text := newText }, reply]
         else m :: rest)
      else m :: editMessageGo targetId newText reply rest

/-- Modelled from the spec: edit is rejected while a generation is in
flight (spec section 4.3). -/
def handleEditMessage (inFlight : Bool) (history : List ChatMessage)
    (targetId newText replyId replyText : String) : List ChatMessage :=
  if inFlight then history
  else editMessageGo targetId newText (mkModelReply replyId replyText) history

/-- Modelled from the spec: the regenerate flow of the History Replay
Controller.  Spec section 4.3: locate the target message, require sender
model, truncate history to before it (dropping it and everything after)
and let the Reconciler append one new model reply. -/
def regenerateGo (targetId : String) (reply : ChatMessage) :
    List ChatMessage → List ChatMessage
  | [] => []
  | m :: rest =>
      if m.id == targetId then
        (if m.sender == MessageSender.model then [reply] else m :: rest)
      else m :: regenerateGo targetId reply rest

/-- Modelled from the spec: regenerate is rejected while a generation is
in flight (spec section 4.3). -/
def handleRegenerateResponse (inFlight : Bool) (history : List ChatMessage)
    (targetId replyId replyText : String) : List ChatMessage :=
  if inFlight then history
  else regenerateGo targetId (mkModelReply replyId replyText) history

/-- Behaviour of the replay scan. -/
lemma editMessageGo_found (targetId newText : String) (reply target : ChatMessage)
    (htid : (target.id == targetId) = true) (hu : target.sender = MessageSender.user) :
    ∀ (pre rest : List ChatMessage), (∀ m ∈ pre, (m.id == targetId) = false) →
      editMessageGo targetId newText reply (pre ++ target :: rest)
        = pre ++ [{ target with text := newText }, reply] := by
  intro pre
  induction pre with
  | nil => intro rest _; simp [editMessageGo, htid, hu]
  | cons m pre ih =>
    intro rest hpre
    have hm : (m.id == targetId) = false := hpre m (List.mem_cons_self m pre)
    simp only [List.cons_append, editMessageGo, List.append_eq, hm]
    simp only [Bool.false_eq_true, if_false]
    rw [ih rest (fun m' hm' => hpre m' (List.mem_cons_of_mem _ hm'))]

/-- Behaviour of the replay scan. -/
lemma editMessageGo_wrong_sender (targetId newText : String) (reply target : ChatMessage)
    (htid : (target.id == targetId) = true) (hu : target.sender ≠ MessageSender.user) :
    ∀ (pre rest : List ChatMessage), (∀ m ∈ pre, (m.id == targetId) = false) →
      editMessageGo targetId newText reply (pre ++ target :: rest)
        = pre ++ target :: rest := by
  intro pre
  induction pre with
  | nil => intro rest _; simp [editMessageGo, htid, hu]
  | cons m pre ih =>
    intro rest hpre
    have hm : (m.id == targetId) = false := hpre m (List.mem_cons_self m pre)
    simp only [List.cons_append, editMessageGo, List.append_eq, hm]
    simp only [Bool.false_eq_true, if_false]
    rw [ih rest (fun m' hm' => hpre m' (List.mem_cons_of_mem _ hm'))]

/-- Behaviour of the replay scan. -/
lemma editMessageGo_not_found (targetId newText : String) (reply : ChatMessage) :
    ∀ history : List ChatMessage, (∀ m ∈ history, (m.id == targetId) = false) →
      editMessageGo targetId newText reply history = history := by
  intro history
  induction history with
  | nil => intro _; rfl
  | cons m rest ih =>
    intro h
    have hm : (m.id == targetId) = false := h m (List.mem_cons_self m rest)
    simp only [editMessageGo, hm, Bool.false_eq_true, if_false]
    rw [ih (fun m' hm' => h m' (List.mem_cons_of_mem _ hm'))]

/-- Behaviour of the replay scan. -/
lemma regenerateGo_found (targetId : String) (reply target : ChatMessage)
    (htid : (target.id == targetId) = true) (hu : target.sender = MessageSender.model) :
    ∀ (pre rest : List ChatMessage), (∀ m ∈ pre, (m.id == targetId) = false) →
      regenerateGo targetId reply (pre ++ target :: rest) = pre ++ [reply] := by
  intro pre
  induction pre with
  | nil => intro rest _; simp [regenerateGo, htid, hu]
  | cons m pre ih =>
    intro rest hpre
    have hm : (m.id == targetId) = false := hpre m (List.mem_cons_self m pre)
    simp only [List.cons_append, regenerateGo, List.append_eq, hm]
    simp only [Bool.false_eq_true, if_false]
    rw [ih rest (fun m' hm' => hpre m' (List.mem_cons_of_mem _ hm'))]

/-- Behaviour of the replay scan. -/
lemma regenerateGo_wrong_sender (targetId : String) (reply target : ChatMessage)
    (htid : (target.id == targetId) = true) (hu : target.sender ≠ MessageSender.model) :
    ∀ (pre rest : List ChatMessage), (∀ m ∈ pre, (m.id == targetId) = false) →
      regenerateGo targetId reply (pre ++ target :: rest) = pre ++ target :: rest := by
  intro pre
  induction pre with
  | nil => intro rest _; simp [regenerateGo, htid, hu]
  | cons m pre ih =>
    intro rest hpre
    have hm : (m.id == targetId) = false := hpre m (List.mem_cons_self m pre)
    simp only [List.cons_append, regenerateGo, List.append_eq, hm]
    simp only [Bool.false_eq_true, if_false]
    rw [ih rest (fun m' hm' => hpre m' (List.mem_cons_of_mem _ hm'))]

/-- Behaviour of the replay scan. -/
lemma regenerateGo_not_found (targetId : String) (reply : ChatMessage) :
    ∀ history : List ChatMessage, (∀ m ∈ history, (m.id == targetId) = false) →
      regenerateGo targetId reply history = history := by
  intro history
  induction history with
  | nil => intro _; rfl
  | cons m rest ih =>
    intro h
    have hm : (m.id == targetId) = false := h m (List.mem_cons_self m rest)
    simp only [regenerateGo, hm, Bool.false_eq_true, if_false]
    rw [ih (fun m' hm' => h m' (List.mem_cons_of_mem _ hm'))]

/-- C6: editing the user message at index i (the first occurrence of its
id, preceded by i other messages) yields the truncated prefix of length i
plus the edited message plus exactly one new model message, so history
length i + 2, regardless of what followed; regenerating the model message
at index i yields history length i + 1 (the prefix plus one new model
message); and both operations are no-ops when a generation is in flight,
when the id is not found, or when the sender precondition fails. -/
theorem C6_history_replay :
    (∀ (pre rest : List ChatMessage) (target : ChatMessage)
        (newText rid rtext : String),
        (∀ m ∈ pre, (m.id == target.id) = false) →
        target.sender = MessageSender.user →
        handleEditMessage false (pre ++ target :: rest) target.id newText rid rtext
            = pre ++ [{ target with text := newText }, mkModelReply rid rtext]
        ∧ (handleEditMessage false (pre ++ target :: rest) target.id newText rid rtext).length
            = pre.length + 2
        ∧ (mkModelReply rid rtext).sender = MessageSender.model)
    ∧ (∀ (pre rest : List ChatMessage) (target : ChatMessage) (rid rtext : String),
        (∀ m ∈ pre, (m.id == target.id) = false) →
        target.sender = MessageSender.model →
        handleRegenerateResponse false (pre ++ target :: rest) target.id rid rtext
            = pre ++ [mkModelReply rid rtext]
        ∧ (handleRegenerateResponse false (pre ++ target :: rest) target.id rid rtext).length
            = pre.length + 1)
    ∧ (∀ (history : List ChatMessage) (targetId newText rid rtext : String),
        handleEditMessage true history targetId newText rid rtext = history
        ∧ handleRegenerateResponse true history targetId rid rtext = history)
    ∧ (∀ (history : List ChatMessage) (targetId newText rid rtext : String),
        (∀ m ∈ history, (m.id == targetId) = false) →
        handleEditMessage false history targetId newText rid rtext = history
        ∧ handleRegenerateResponse false history targetId rid rtext = history)
    ∧ (∀ (pre rest : List ChatMessage) (target : ChatMessage)
        (newText rid rtext : String),
        (∀ m ∈ pre, (m.id == target.id) = false) →
        (target.sender ≠ MessageSender.user →
          handleEditMessage false (pre ++ target :: rest) target.id newText rid rtext
            = pre ++ target :: rest)
        ∧ (target.sender ≠ MessageSender.model →
          handleRegenerateResponse false (pre ++ target :: rest) target.id rid rtext
            = pre ++ target :: rest)) := by
  refine ⟨?_, ?_, ?_, ?_, ?_⟩
  · intro pre rest target newText rid rtext hpre hu
    have h := editMessageGo_found target.id newText (mkModelReply rid rtext) target
      (by simp) hu pre rest hpre
    refine ⟨h, ?_, rfl⟩
    show (editMessageGo target.id newText (mkModelReply rid rtext)
      (pre ++ target :: rest)).length = pre.length + 2
    rw [h]
    simp
  · intro pre rest target rid rtext hpre hu
    have h := regenerateGo_found target.id (mkModelReply rid rtext) target
      (by simp) hu pre rest hpre
    refine ⟨h, ?_⟩
    show (regenerateGo target.id (mkModelReply rid rtext)
      (pre ++ target :: rest)).length = pre.length + 1
    rw [h]
    simp
  · intro history targetId newText rid rtext
    exact ⟨rfl, rfl⟩
  · intro history targetId newText rid rtext h
    exact ⟨editMessageGo_not_found targetId newText _ history h,
      regenerateGo_not_found targetId _ history h⟩
  · intro pre rest target newText rid rtext hpre
    constructor
    · intro hu
      exact editMessageGo_wrong_sender target.id newText (mkModelReply rid rtext) target
        (by simp) hu pre rest hpre
    · intro hu
      exact regenerateGo_wrong_sender target.id (mkModelReply rid rtext) target
        (by simp) hu pre rest hpre

/-- C6, witness: editing the first message of a two-message history
replaces it and regenerates exactly one model reply. -/
theorem C6_history_replay_witness :
    handleEditMessage false
        [{ id := "u1", text := "hi", sender := MessageSender.user },
         { id := "m1", text := "yo", sender := MessageSender.model }]
        "u1" "hello" "m2" "reply"
      = [{ id := "u1", text := "hello", sender := MessageSender.user },
         mkModelReply "m2" "reply"] :=
  (C6_history_replay.1 [] [{ id := "m1", text := "yo", sender := MessageSender.model }]
    { id := "u1", text := "hi", sender := MessageSender.user } "hello" "m2" "reply"
    (by simp) rfl).1

/- ============================================================ -/
/- Attachment lifecycle (ChatInterface.tsx)                     -/
/- ============================================================ -/

/-- Whether a file read succeeded with a base64 payload, or failed (the
FileReader error event, or a missing data URL payload). -/
inductive ReadOutcome
  | success (data : String)
  | failure
  deriving DecidableEq, Repr

/-- The placeholder `handleFiles` inserts synchronously for a selected
file: id from the file name and the current time, status loading, no
data. -/
def attPlaceholder (f : FileInfo) (now : Nat) : Attachment :=
  { id := "att-" ++ f.name ++ "-" ++ toString now, name := f.name, type := f.type,
    status := AttachmentStatus.loading }

/-- The single completion `handleFiles` applies to a placeholder: an
unsupported MIME type is marked error synchronously; otherwise the
FileReader result marks it loaded with the base64 data, or error with the
read-failure message. -/
def completeAttachment (att : Attachment) (f : FileInfo) (outcome : ReadOutcome) : Attachment :=
  if !(supportedTypes.contains f.type) then
    { att with
      status := AttachmentStatus.error,
      errorMessage := some "Unsupported file type" }
  else
    match outcome with
    | ReadOutcome.success d =>
        { att with status := AttachmentStatus.loaded, data := some d }
    | ReadOutcome.failure =>
        { att with
          status := AttachmentStatus.error,
          errorMessage := some "Failed to read file" }

/-- The statuses a file-selection attachment passes through: its creation
status followed by the status after its single completion. -/
def statusTrace (f : FileInfo) (now : Nat) (outcome : ReadOutcome) : List AttachmentStatus :=
  [(attPlaceholder f now).status,
   (completeAttachment (attPlaceholder f now) f outcome).status]

/-- The attachment `EmbeddedCameraView.handleCapture` creates for a
captured photo: jpeg data already present, status loaded from the start. -/
def captureAttachment (base64Data : String) (now : Nat) : Attachment :=
  { id := "capture-" ++ toString now, name := "capture.jpg", type := "image/jpeg",
    data := some base64Data, status := AttachmentStatus.loaded }

/- ============================================================ -/
/- Claim C9                                                     -/
/- ============================================================ -/

/-- C9, counterexample: the camera-capture attachment is created with
status loaded, not loading, so not every attachment is created in status
loading and transitions exactly once. -/
theorem C9_attachment_lifecycle_counterexample :
    (captureAttachment "ZGF0YQ==" 0).status = AttachmentStatus.loaded
    ∧ AttachmentStatus.loaded ≠ AttachmentStatus.loading :=
  ⟨rfl, by decide⟩

/-- C9 (amended): attachments created by the file-selection path start in
status loading and transition exactly once, to loaded with data populated
or to error with errorMessage populated, never back to loading; attachments
created by camera capture are created directly in status loaded with the
data populated and undergo no transition. -/
theorem C9_attachment_lifecycle_amended :
    (∀ (f : FileInfo) (now : Nat),
        (attPlaceholder f now).status = AttachmentStatus.loading)
    ∧ (∀ (f : FileInfo) (now : Nat) (outcome : ReadOutcome),
        ((completeAttachment (attPlaceholder f now) f outcome).status = AttachmentStatus.loaded
            ∧ (completeAttachment (attPlaceholder f now) f outcome).data.isSome = true)
        ∨ ((completeAttachment (attPlaceholder f now) f outcome).status = AttachmentStatus.error
            ∧ (completeAttachment (attPlaceholder f now) f outcome).errorMessage.isSome = true))
    ∧ (∀ (f : FileInfo) (now : Nat) (outcome : ReadOutcome),
        statusTrace f now outcome
          = [AttachmentStatus.loading,
             (completeAttachment (attPlaceholder f now) f outcome).status]
        ∧ (completeAttachment (attPlaceholder f now) f outcome).status ≠ AttachmentStatus.loading)
    ∧ (∀ (d : String) (now : Nat),
        (captureAttachment d now).status = AttachmentStatus.loaded
        ∧ (captureAttachment d now).data = some d) := by
  refine ⟨fun _ _ => rfl, ?_, ?_, fun _ _ => ⟨rfl, rfl⟩⟩
  · intro f now outcome
    unfold completeAttachment
    split
    · right
      exact ⟨rfl, rfl⟩
    · cases outcome with
      | success d => left; exact ⟨rfl, rfl⟩
      | failure => right; exact ⟨rfl, rfl⟩
  · intro f now outcome
    refine ⟨rfl, ?_⟩
    unfold completeAttachment
    split
    · simp
    · cases outcome <;> simp
